import Mathlib

/-!
# dirwalk-go: walking a directory tree and summing sizes

A shallow embedding of `scripts/dirwalk-go/dirwalk.go`.

The program keeps two package-level variables, `files` and `total_size`,
and hands one of the callbacks `visit` / `visit_size` to
`filepath.WalkDir`.  The operating system is an explicit record of query
functions (`os.Lstat`, `os.Stat`, the raw directory listing, and
`filepath.Join`); a static file system is one fixed such record.  A Go
panic is an explicit outcome, and `int64` addition wraps.
-/

namespace Dirwalk

/-! ## Go values -/

deriving instance DecidableEq for Except

/-- The `error` values the walk tells apart: the two sentinels of `io/fs`
and everything else. -/
inductive GoError where
  | SkipDir
  | SkipAll
  | other (msg : String)
deriving DecidableEq, Repr

/-- What a `fs.FileInfo` reports. -/
structure FileInfo where
  name : String
  size : Int
  isDir : Bool
deriving DecidableEq, Repr

/-- What a `fs.DirEntry` reports. -/
structure DirEntry where
  name : String
  isDir : Bool
deriving DecidableEq, Repr

/-- The conversion `fs.FileInfoToDirEntry`. -/
def FileInfoToDirEntry (info : FileInfo) : DirEntry :=
  { name := info.name, isDir := info.isDir }

/-- Why an execution did not return: a run-time panic, or the bound on the
recursion depth of the model was reached. -/
inductive Abort where
  | panic (msg : String)
  | outOfFuel
deriving DecidableEq, Repr

/-- The message of a nil dereference. -/
def nilDeref : String :=
  "runtime error: invalid memory address or nil pointer dereference"

/-- The message of an index out of range. -/
def indexOutOfRange : String :=
  "runtime error: index out of range"

/-- The file system and path library as the program sees them.
`Lstat` and `Stat` give either the error of a failed query (the `FileInfo`
is then nil) or the `FileInfo`; `readdir` is the listing in directory order
together with the error of the listing, if any. -/
structure OS where
  Lstat : String → Except GoError FileInfo
  Stat : String → Except GoError FileInfo
  readdir : String → List DirEntry × Option GoError
  Join : String → String → String

/-! ## 64-bit integers -/

/-- The value of an `int64` after an arithmetic result `x`: two's
complement wrap-around into `[-2^63, 2^63)`. -/
def wrapInt64 (x : Int) : Int :=
  (x + 2 ^ 63) % 2 ^ 64 - 2 ^ 63

/-- The largest `int64`. -/
def maxInt64 : Int := 2 ^ 63 - 1

/-- The smallest `int64`. -/
def minInt64 : Int := -(2 ^ 63)

/-! ## The program state -/

/-- The package-level variables `files` and `total_size`, and a record of
the `os.Stat` queries issued so far (the only system call of the
callbacks). -/
structure State where
  files : List String
  total_size : Int
  statLog : List String
deriving DecidableEq, Repr

/-- The values the variables are declared with. -/
def State.init : State :=
  { files := [], total_size := 0, statLog := [] }

/-- A callback of the walk: path, directory entry (nil for a root that
could not be resolved), listing error; it returns an `error`. -/
abbrev WalkDirFunc :=
  String → Option DirEntry → Option GoError → State → Except Abort (State × Option GoError)

/-- The callback `visit`. -/
def visit : WalkDirFunc := fun path _di _err s =>
  let s := { s with files := s.files ++ [path] }
  .ok (s, none)

/-- The callback `visit_size`. The error of `os.Stat` is assigned and not
read; `file_info.Size()` on a nil `FileInfo` panics. -/
def visit_size (os : OS) : WalkDirFunc := fun path _di _err s =>
  let file_info := os.Stat path
  let s := { s with statLog := s.statLog ++ [path] }
  match file_info with
  | .error _ => .error (.panic nilDeref)
  | .ok info =>
    let s := { s with total_size := wrapInt64 (s.total_size + info.size) }
    let s := { s with files := s.files ++ [path] }
    .ok (s, none)

/-! ## `os.ReadDir` and `filepath.WalkDir`

The program calls `filepath.WalkDir` of the Go standard library, which is
transcribed here from `path/filepath`:

    func walkDir(path string, d fs.DirEntry, walkDirFn fs.WalkDirFunc) error {
        if err := walkDirFn(path, d, nil); err != nil || !d.IsDir() {
            if err == SkipDir && d.IsDir() { err = nil }
            return err
        }
        dirs, err := os.ReadDir(path)
        if err != nil {
            err = walkDirFn(path, d, err)   // second call, to report the error
            if err != nil {
                if err == SkipDir && d.IsDir() { err = nil }
                return err
            }
        }
        for _, d1 := range dirs {
            path1 := Join(path, d1.Name())
            if err := walkDir(path1, d1, walkDirFn); err != nil {
                if err == SkipDir { break }
                return err
            }
        }
        return nil
    }

    func WalkDir(root string, fn fs.WalkDirFunc) error {
        info, err := os.Lstat(root)
        if err != nil {
            err = fn(root, nil, err)
        } else {
            err = walkDir(root, fs.FileInfoToDirEntry(info), fn)
        }
        if err == SkipDir || err == SkipAll { return nil }
        return err
    }

`os.ReadDir` returns the entries it could read sorted by file name, with
the error of the listing; `filepath.Join` is a field of `OS`, and every
theorem holds for every such function.
-/

/-- The order of two file names: lexicographic in their characters (for
valid UTF-8 the same as Go's bytewise `<=` on strings). -/
def nameLE (a b : String) : Prop :=
  a.toList ≤ b.toList

instance nameLE.dec : DecidableRel nameLE :=
  fun a b => inferInstanceAs (Decidable (a.toList ≤ b.toList))

/-- The order of two directory entries: by file name. -/
def DirEntry.le (a b : DirEntry) : Prop :=
  nameLE a.name b.name

instance DirEntry.le.dec : DecidableRel DirEntry.le :=
  fun a b => inferInstanceAs (Decidable (nameLE a.name b.name))

instance DirEntry.le.total : IsTotal DirEntry DirEntry.le :=
  ⟨fun a b => le_total a.name.toList b.name.toList⟩

instance DirEntry.le.trans : IsTrans DirEntry DirEntry.le :=
  ⟨fun _ _ _ hab hbc => @le_trans (List Char) _ _ _ _ hab hbc⟩

/-- The function `os.ReadDir`: the entries read, sorted by file name, and
the error of the listing (a listing that cannot be opened reads no entry). -/
def ReadDir (os : OS) (path : String) : List DirEntry × Option GoError :=
  let (dirs, err) := os.readdir path
  (dirs.insertionSort DirEntry.le, err)

/-- The loop `for _, d1 := range dirs` of `walkDir`; `rec` is the
recursive call. -/
def walkLoop (os : OS) (rec : String → DirEntry → State → Except Abort (State × Option GoError))
    (path : String) : List DirEntry → State → Except Abort (State × Option GoError)
  | [], s => .ok (s, none)
  | d1 :: rest, s =>
    let path1 := os.Join path d1.name
    match rec path1 d1 s with
    | .error a => .error a
    | .ok (s, some .SkipDir) => .ok (s, none)
    | .ok (s, some e) => .ok (s, some e)
    | .ok (s, none) => walkLoop os rec path rest s

/-- The function `walkDir` of `path/filepath`; `fuel` bounds the depth of
the recursion. -/
def walkDir (os : OS) (fn : WalkDirFunc) :
    Nat → String → DirEntry → State → Except Abort (State × Option GoError)
  | 0, _, _, _ => .error .outOfFuel
  | fuel + 1, path, d, s =>
    match fn path (some d) none s with
    | .error a => .error a
    | .ok (s, err) =>
      if err ≠ none ∨ !d.isDir then
        if err = some .SkipDir ∧ d.isDir then .ok (s, none) else .ok (s, err)
      else
        let (dirs, err) := ReadDir os path
        let second : Except Abort (State × Option GoError) :=
          match err with
          | none => .ok (s, none)
          | some e => fn path (some d) (some e) s
        match second with
        | .error a => .error a
        | .ok (s, some e) =>
          if e = .SkipDir ∧ d.isDir then .ok (s, none) else .ok (s, some e)
        | .ok (s, none) => walkLoop os (walkDir os fn fuel) path dirs s

/-- The function `filepath.WalkDir`. -/
def WalkDir (os : OS) (fn : WalkDirFunc) (fuel : Nat) (root : String) (s : State) :
    Except Abort (State × Option GoError) :=
  let r :=
    match os.Lstat root with
    | .error err => fn root none (some err) s
    | .ok info => walkDir os fn fuel root (FileInfoToDirEntry info) s
  match r with
  | .error a => .error a
  | .ok (s, err) =>
    if err = some .SkipDir ∨ err = some .SkipAll then .ok (s, none) else .ok (s, err)

/-! ## `main` -/

/-- How a run of the program ended. -/
inductive Exit where
  | returned
  | aborted (a : Abort)
deriving DecidableEq, Repr

/-- What a run leaves behind: the lines written to standard output and how
it ended. -/
structure Run where
  stdout : List String
  exit : Exit
deriving DecidableEq, Repr

/-- The function `main`, run on the command line `args` (`os.Args`) with
the variables at their declared values. -/
def main (os : OS) (fuel : Nat) (args : List String) : Run :=
  match args with
  | _ :: path_dir :: _ =>
    let out := [path_dir]
    match WalkDir os (visit_size os) fuel path_dir State.init with
    | .error a => { stdout := out, exit := .aborted a }
    | .ok (_, some _) => { stdout := out, exit := .returned }
    | .ok (s, none) =>
      let out := out ++ [toString s.files.length]
      let out := out ++ [toString s.total_size]
      { stdout := out, exit := .returned }
  | _ => { stdout := [], exit := .aborted (.panic indexOutOfRange) }

/-! ## Sizes as `os.Stat` reports them -/

/-- The size a stat query on `path` resolves to, when it succeeds. -/
def statSize (os : OS) (path : String) : Option Int :=
  match os.Stat path with
  | .ok info => some info.size
  | .error _ => none

/-- The sum of the stat-reported sizes over the paths of a visited
sequence whose size resolution succeeds. -/
def statSum (os : OS) (files : List String) : Int :=
  (files.filterMap (statSize os)).sum

/-! ## Concrete file systems -/

/-- No such file or directory. -/
def ENOENT : GoError := .other "no such file or directory"

/-- Permission denied. -/
def EACCES : GoError := .other "permission denied"

/-- The path join used in the examples: both parts with a slash between. -/
def joinSlash (a b : String) : String :=
  a ++ "/" ++ b

/-- A directory `r` holding `a.txt` (10 bytes), `b.txt` (20 bytes) and a
directory `c` holding `d.txt` (5 bytes); both directories report 4096
bytes, and the listing of `r` comes back unsorted. -/
def demoOS : OS where
  Lstat := fun p => if p = "r" then .ok ⟨"r", 4096, true⟩ else .error ENOENT
  Stat := fun p =>
    if p = "r" then .ok ⟨"r", 4096, true⟩
    else if p = "r/a.txt" then .ok ⟨"a.txt", 10, false⟩
    else if p = "r/b.txt" then .ok ⟨"b.txt", 20, false⟩
    else if p = "r/c" then .ok ⟨"c", 4096, true⟩
    else if p = "r/c/d.txt" then .ok ⟨"d.txt", 5, false⟩
    else .error ENOENT
  readdir := fun p =>
    if p = "r" then ([⟨"c", true⟩, ⟨"b.txt", false⟩, ⟨"a.txt", false⟩], none)
    else if p = "r/c" then ([⟨"d.txt", false⟩], none)
    else ([], some ENOENT)
  Join := joinSlash

/-- A directory `big` holding two files of 2^62 bytes each; the directory
itself reports 0 bytes. -/
def sparseOS : OS where
  Lstat := fun p => if p = "big" then .ok ⟨"big", 0, true⟩ else .error ENOENT
  Stat := fun p =>
    if p = "big" then .ok ⟨"big", 0, true⟩
    else if p = "big/x" then .ok ⟨"x", 2 ^ 62, false⟩
    else if p = "big/y" then .ok ⟨"y", 2 ^ 62, false⟩
    else .error ENOENT
  readdir := fun p =>
    if p = "big" then ([⟨"x", false⟩, ⟨"y", false⟩], none) else ([], some ENOENT)
  Join := joinSlash

/-- The state after callback calls on the paths `visited` that added
`added` bytes in all. -/
def State.after (s : State) (visited : List String) (added : Int) : State :=
  { files := s.files ++ visited,
    total_size := wrapInt64 (s.total_size + added),
    statLog := s.statLog ++ visited }

/-! ## Static trees -/

/-- A static tree in which every stat query succeeds: a non-directory
entry, a directory with its children in directory order, or a directory
whose listing fails with no entries read. `size` is what `os.Stat`
reports for the entry. -/
inductive Tree where
  | file (name : String) (size : Int)
  | dir (name : String) (size : Int) (kids : List Tree)
  | locked (name : String) (size : Int) (err : GoError)
deriving Repr

/-- The file name of the entry at the top of a tree. -/
def Tree.name : Tree → String
  | .file n _ => n
  | .dir n _ _ => n
  | .locked n _ _ => n

/-- Whether the entry at the top of a tree is a directory. -/
def Tree.isDir : Tree → Bool
  | .file _ _ => false
  | .dir _ _ _ => true
  | .locked _ _ _ => true

/-- The size the entry at the top of a tree reports. -/
def Tree.size : Tree → Int
  | .file _ s => s
  | .dir _ s _ => s
  | .locked _ s _ => s

/-- The directory entry a listing of the parent gives for a tree. -/
def Tree.entry (t : Tree) : DirEntry :=
  { name := t.name, isDir := t.isDir }

/-- The order of two trees: by the file name at the top. -/
def Tree.le (a b : Tree) : Prop :=
  nameLE a.name b.name

instance Tree.le.dec : DecidableRel Tree.le :=
  fun a b => inferInstanceAs (Decidable (nameLE a.name b.name))

mutual
/-- The file system `os` looks like the tree at `path`: the stat query on
every entry succeeds with the size of the tree, and the listing of every
directory is the one of the tree. -/
def Tree.holds (os : OS) : String → Tree → Bool
  | path, .file _ size => decide (statSize os path = some size)
  | path, .dir _ size kids =>
    decide (statSize os path = some size) &&
      decide (os.readdir path = (kids.map Tree.entry, none)) &&
      Tree.holdsKids os path kids
  | path, .locked _ size err =>
    decide (statSize os path = some size) &&
      decide (os.readdir path = ([], some err))
/-- The file system looks like each of the children of the directory at
`path`. -/
def Tree.holdsKids (os : OS) : String → List Tree → Bool
  | _, [] => true
  | path, k :: ks => Tree.holds os (os.Join path k.name) k && Tree.holdsKids os path ks
end

/-- The file system looks like the tree at the root path `root`, and
`os.Lstat` resolves the root to an entry of the same kind. -/
def Tree.rooted (os : OS) (root : String) (t : Tree) : Bool :=
  (match os.Lstat root with
    | .ok info => decide (info.isDir = t.isDir)
    | .error _ => false) &&
  t.holds os root

mutual
/-- The number of directory levels below the top of a tree. -/
def Tree.depth : Tree → Nat
  | .file _ _ => 0
  | .dir _ _ kids => Tree.depthKids kids + 1
  | .locked _ _ _ => 0
/-- The largest depth among a list of trees. -/
def Tree.depthKids : List Tree → Nat
  | [] => 0
  | k :: ks => max k.depth (Tree.depthKids ks)
end

mutual
/-- The number of entries of a tree: its top and every descendant. -/
def Tree.count : Tree → Nat
  | .file _ _ => 1
  | .dir _ _ kids => 1 + Tree.countKids kids
  | .locked _ _ _ => 1
/-- The number of entries of a list of trees. -/
def Tree.countKids : List Tree → Nat
  | [] => 0
  | k :: ks => k.count + Tree.countKids ks
end

mutual
/-- Every directory of the tree can be listed. -/
def Tree.listable : Tree → Bool
  | .file _ _ => true
  | .dir _ _ kids => Tree.listableKids kids
  | .locked _ _ _ => false
/-- Every directory of every tree of the list can be listed. -/
def Tree.listableKids : List Tree → Bool
  | [] => true
  | k :: ks => k.listable && Tree.listableKids ks
end

mutual
/-- The sum of the sizes of the non-directory entries of a tree. -/
def Tree.fileSizeSum : Tree → Int
  | .file _ size => size
  | .dir _ _ kids => Tree.fileSizeSumKids kids
  | .locked _ _ _ => 0
/-- The sum of the sizes of the non-directory entries of a list of trees. -/
def Tree.fileSizeSumKids : List Tree → Int
  | [] => 0
  | k :: ks => k.fileSizeSum + Tree.fileSizeSumKids ks
end

mutual
/-- The sum of the sizes the directories of a tree report, a directory
whose listing fails taken twice. -/
def Tree.dirSizeSum : Tree → Int
  | .file _ _ => 0
  | .dir _ size kids => size + Tree.dirSizeSumKids kids
  | .locked _ size _ => size + size
/-- The directory sizes of a list of trees. -/
def Tree.dirSizeSumKids : List Tree → Int
  | [] => 0
  | k :: ks => k.dirSizeSum + Tree.dirSizeSumKids ks
end

mutual
/-- The paths of the entries of the tree at `path`, each once. -/
def Tree.paths (join : String → String → String) : String → Tree → List String
  | path, .file _ _ => [path]
  | path, .dir _ _ kids => path :: Tree.pathsKids join path kids
  | path, .locked _ _ _ => [path]
/-- The paths of the entries of the children of the directory at `path`. -/
def Tree.pathsKids (join : String → String → String) : String → List Tree → List String
  | _, [] => []
  | path, k :: ks => Tree.paths join (join path k.name) k ++ Tree.pathsKids join path ks
end

mutual
/-- The paths of the directories of the tree at `path` whose listing
fails. -/
def Tree.lockedPaths (join : String → String → String) : String → Tree → List String
  | _, .file _ _ => []
  | path, .dir _ _ kids => Tree.lockedPathsKids join path kids
  | path, .locked _ _ _ => [path]
/-- The unlistable directories among the children of the directory at
`path` and below. -/
def Tree.lockedPathsKids (join : String → String → String) :
    String → List Tree → List String
  | _, [] => []
  | path, k :: ks =>
    Tree.lockedPaths join (join path k.name) k ++ Tree.lockedPathsKids join path ks
end

/-- The order of two named listings: by name. -/
def namedLE (a b : String × List String) : Prop :=
  nameLE a.1 b.1

instance namedLE.dec : DecidableRel namedLE :=
  fun a b => inferInstanceAs (Decidable (nameLE a.1 b.1))

instance namedLE.total : IsTotal (String × List String) namedLE :=
  ⟨fun a b => le_total a.1.toList b.1.toList⟩

instance namedLE.trans : IsTrans (String × List String) namedLE :=
  ⟨fun _ _ _ hab hbc => @le_trans (List Char) _ _ _ _ hab hbc⟩

/-- The listings of the children of a directory put together: taken in
lexicographic order of the children's names, one after the other. -/
def inNameOrder (named : List (String × List String)) : List String :=
  ((named.insertionSort namedLE).map Prod.snd).flatten

mutual
/-- The depth-first pre-order listing of the tree at `path`: the path of a
directory comes before the paths below it, and the children of a
directory are taken in lexicographic order of their names. -/
def Tree.preorder (join : String → String → String) : String → Tree → List String
  | path, .file _ _ => [path]
  | path, .dir _ _ kids => path :: inNameOrder (Tree.preorderKids join path kids)
  | path, .locked _ _ _ => [path]
/-- The name and the pre-order listing of each child of the directory at
`path`. -/
def Tree.preorderKids (join : String → String → String) :
    String → List Tree → List (String × List String)
  | _, [] => []
  | path, k :: ks =>
    (k.name, Tree.preorder join (join path k.name) k) :: Tree.preorderKids join path ks
end

mutual
/-- The sequence of callback calls a walk of the tree at `path` makes: as
the pre-order listing, with a second call for a directory whose listing
fails. -/
def Tree.visits (join : String → String → String) : String → Tree → List String
  | path, .file _ _ => [path]
  | path, .dir _ _ kids => path :: inNameOrder (Tree.visitsKids join path kids)
  | path, .locked _ _ _ => [path, path]
/-- The name and the sequence of calls of each child of the directory at
`path`. -/
def Tree.visitsKids (join : String → String → String) :
    String → List Tree → List (String × List String)
  | _, [] => []
  | path, k :: ks =>
    (k.name, Tree.visits join (join path k.name) k) :: Tree.visitsKids join path ks
end

/-- The demo file system as a tree, the children of `r` in the order the
listing gives them. -/
def demoTree : Tree :=
  .dir "r" 4096 [.dir "c" 4096 [.file "d.txt" 5], .file "b.txt" 20, .file "a.txt" 10]

/-- A directory `r` of 4096 bytes that holds nothing. -/
def emptyTree : Tree :=
  .dir "r" 4096 []

/-- The file system of `emptyTree`. -/
def emptyOS : OS where
  Lstat := fun p => if p = "r" then .ok ⟨"r", 4096, true⟩ else .error ENOENT
  Stat := fun p => if p = "r" then .ok ⟨"r", 4096, true⟩ else .error ENOENT
  readdir := fun p => if p = "r" then ([], none) else ([], some ENOENT)
  Join := joinSlash

/-- A directory `r` holding `a.txt` (10 bytes) and a directory `priv`
whose listing is denied. -/
def lockedTree : Tree :=
  .dir "r" 4096 [.locked "priv" 4096 EACCES, .file "a.txt" 10]

/-- The file system of `lockedTree`. -/
def lockedOS : OS where
  Lstat := fun p => if p = "r" then .ok ⟨"r", 4096, true⟩ else .error ENOENT
  Stat := fun p =>
    if p = "r" then .ok ⟨"r", 4096, true⟩
    else if p = "r/a.txt" then .ok ⟨"a.txt", 10, false⟩
    else if p = "r/priv" then .ok ⟨"priv", 4096, true⟩
    else .error ENOENT
  readdir := fun p =>
    if p = "r" then ([⟨"priv", true⟩, ⟨"a.txt", false⟩], none)
    else if p = "r/priv" then ([], some EACCES)
    else ([], some ENOENT)
  Join := joinSlash

/-! ## Facts about `wrapInt64` -/

theorem wrapInt64_of_fits (x : Int) (hlo : minInt64 ≤ x) (hhi : x ≤ maxInt64) :
    wrapInt64 x = x := by
  unfold wrapInt64 minInt64 maxInt64 at *
  omega

theorem wrapInt64_add_left (a b : Int) :
    wrapInt64 (wrapInt64 a + b) = wrapInt64 (a + b) := by
  unfold wrapInt64
  omega

theorem wrapInt64_range (x : Int) : minInt64 ≤ wrapInt64 x ∧ wrapInt64 x ≤ maxInt64 := by
  unfold wrapInt64 minInt64 maxInt64
  omega

/-! ## The callbacks -/

theorem visit_eq (path : String) (di : Option DirEntry) (err : Option GoError) (s : State) :
    visit path di err s = .ok ({ s with files := s.files ++ [path] }, none) := rfl

theorem visit_size_ok (os : OS) (path : String) (di : Option DirEntry) (err : Option GoError)
    (s : State) (info : FileInfo) (h : os.Stat path = .ok info) :
    visit_size os path di err s =
      .ok ({ files := s.files ++ [path],
             total_size := wrapInt64 (s.total_size + info.size),
             statLog := s.statLog ++ [path] }, none) := by
  simp [visit_size, h]

theorem visit_size_panic (os : OS) (path : String) (di : Option DirEntry)
    (err : Option GoError) (s : State) (e : GoError) (h : os.Stat path = .error e) :
    visit_size os path di err s = .error (.panic nilDeref) := by
  simp [visit_size, h]

/-- A call of `visit_size` that returns had a successful stat query, and
its effect is the one of `visit_size_ok`. -/
theorem visit_size_returns (os : OS) (path : String) (di : Option DirEntry)
    (err : Option GoError) (s s' : State) (e : Option GoError)
    (h : visit_size os path di err s = .ok (s', e)) :
    ∃ info, os.Stat path = .ok info ∧ e = none ∧
      s' = { files := s.files ++ [path],
             total_size := wrapInt64 (s.total_size + info.size),
             statLog := s.statLog ++ [path] } := by
  cases hst : os.Stat path with
  | error e0 => rw [visit_size_panic os path di err s e0 hst] at h; cases h
  | ok info =>
    rw [visit_size_ok os path di err s info hst] at h
    cases h
    exact ⟨info, rfl, rfl, rfl⟩

/-! ## Properties of the state kept by a walk -/

/-- A property of the state that every returning call of `rec` keeps is
kept by the loop over the entries of a directory. -/
theorem walkLoop_preserves (os : OS) (P : State → Prop)
    (rec : String → DirEntry → State → Except Abort (State × Option GoError))
    (hrec : ∀ p d s r, P s → rec p d s = .ok r → P r.1) (path : String) :
    ∀ (dirs : List DirEntry) (s : State) (r : State × Option GoError),
      P s → walkLoop os rec path dirs s = .ok r → P r.1 := by
  intro dirs
  induction dirs with
  | nil =>
    intro s r hs h
    simp only [walkLoop] at h
    cases h
    exact hs
  | cons d1 rest ih =>
    intro s r hs h
    rw [walkLoop] at h
    cases hr : rec (os.Join path d1.name) d1 s with
    | error a => simp [hr] at h
    | ok r1 =>
      have h1 : P r1.1 := hrec _ _ _ _ hs hr
      obtain ⟨s1, e1⟩ := r1
      cases e1 with
      | none =>
        simp only [hr] at h
        exact ih s1 r h1 h
      | some e =>
        cases e <;> simp only [hr] at h <;> cases h <;> exact h1

/-- A property of the state that every returning call of the callback
keeps is kept by `walkDir`. -/
theorem walkDir_preserves (os : OS) (fn : WalkDirFunc) (P : State → Prop)
    (hfn : ∀ p d e s r, P s → fn p d e s = .ok r → P r.1) :
    ∀ (fuel : Nat) (path : String) (d : DirEntry) (s : State) (r : State × Option GoError),
      P s → walkDir os fn fuel path d s = .ok r → P r.1 := by
  intro fuel
  induction fuel with
  | zero =>
    intro path d s r _ h
    simp [walkDir] at h
  | succ fuel ih =>
    intro path d s r hs h
    rw [walkDir] at h
    cases h1 : fn path (some d) none s with
    | error a => simp [h1] at h
    | ok r1 =>
      have hP1 : P r1.1 := hfn _ _ _ _ _ hs h1
      obtain ⟨s1, e1⟩ := r1
      simp only [h1] at h
      split at h
      · split at h <;> cases h <;> exact hP1
      · cases h2 : (ReadDir os path).2 with
        | none =>
          simp only [h2] at h
          exact walkLoop_preserves os P _ (fun p d s r => ih p d s r) path _ _ _ hP1 h
        | some e =>
          simp only [h2] at h
          cases h3 : fn path (some d) (some e) s1 with
          | error a => simp [h3] at h
          | ok r2 =>
            have hP2 : P r2.1 := hfn _ _ _ _ _ hP1 h3
            obtain ⟨s2, e2⟩ := r2
            simp only [h3] at h
            cases e2 with
            | none =>
              exact walkLoop_preserves os P _ (fun p d s r => ih p d s r) path _ _ _ hP2 h
            | some e3 =>
              simp only at h
              split at h <;> cases h <;> exact hP2

/-- A property of the state that every returning call of the callback
keeps is kept by `filepath.WalkDir`. -/
theorem WalkDir_preserves (os : OS) (fn : WalkDirFunc) (P : State → Prop)
    (hfn : ∀ p d e s r, P s → fn p d e s = .ok r → P r.1)
    (fuel : Nat) (root : String) (s : State) (r : State × Option GoError)
    (hs : P s) (h : WalkDir os fn fuel root s = .ok r) : P r.1 := by
  unfold WalkDir at h
  cases hl : os.Lstat root with
  | error e =>
    simp only [hl] at h
    cases h1 : fn root none (some e) s with
    | error a => simp [h1] at h
    | ok r1 =>
      have hP1 : P r1.1 := hfn _ _ _ _ _ hs h1
      simp only [h1] at h
      split at h <;> cases h <;> exact hP1
  | ok info =>
    simp only [hl] at h
    cases h1 : walkDir os fn fuel root (FileInfoToDirEntry info) s with
    | error a => simp [h1] at h
    | ok r1 =>
      have hP1 : P r1.1 := walkDir_preserves os fn P hfn _ _ _ _ _ hs h1
      simp only [h1] at h
      split at h <;> cases h <;> exact hP1

/-! ## The size total and the visited sequence -/

theorem statSum_append_ok (os : OS) (files : List String) (path : String) (info : FileInfo)
    (h : os.Stat path = .ok info) :
    statSum os (files ++ [path]) = statSum os files + info.size := by
  simp [statSum, statSize, h, List.filterMap_append]

/-- Every returning call of `visit_size` keeps `total_size` equal to the
wrapped sum of the sizes of the visited paths. -/
theorem visit_size_keeps_sum (os : OS) (p : String) (d : Option DirEntry)
    (e : Option GoError) (s : State) (r : State × Option GoError)
    (hs : s.total_size = wrapInt64 (statSum os s.files))
    (h : visit_size os p d e s = .ok r) :
    r.1.total_size = wrapInt64 (statSum os r.1.files) := by
  obtain ⟨s', e'⟩ := r
  obtain ⟨info, hst, _, rfl⟩ := visit_size_returns os p d e s s' e' h
  simp only [statSum_append_ok os s.files p info hst, hs, wrapInt64_add_left]

/-- C2 (as amended): after a walk with `visit_size` that starts from the
declared values and completes, `total_size` is the sum of the stat-reported
sizes over the visited sequence, wrapped into the `int64` range; it is that
sum itself whenever the sum fits in an `int64`. -/
theorem total_size_eq_wrapped_sum (os : OS) (fuel : Nat) (root : String)
    (s' : State) (err : Option GoError)
    (h : WalkDir os (visit_size os) fuel root State.init = .ok (s', err)) :
    s'.total_size = wrapInt64 (statSum os s'.files) ∧
      (minInt64 ≤ statSum os s'.files → statSum os s'.files ≤ maxInt64 →
        s'.total_size = statSum os s'.files) := by
  have key : s'.total_size = wrapInt64 (statSum os s'.files) :=
    WalkDir_preserves os (visit_size os)
      (fun s => s.total_size = wrapInt64 (statSum os s.files))
      (fun p d e s r hs hr => visit_size_keeps_sum os p d e s r hs hr)
      fuel root State.init (s', err) (by simp [State.init, statSum, wrapInt64]) h
  exact ⟨key, fun hlo hhi => by rw [key, wrapInt64_of_fits _ hlo hhi]⟩

set_option maxRecDepth 100000 in
/-- Witness for C2: the walk over the demo tree. -/
theorem total_size_eq_wrapped_sum_witness :
    WalkDir demoOS (visit_size demoOS) 3 "r" State.init =
        .ok ({ files := ["r", "r/a.txt", "r/b.txt", "r/c", "r/c/d.txt"],
               total_size := 8227,
               statLog := ["r", "r/a.txt", "r/b.txt", "r/c", "r/c/d.txt"] }, none) ∧
      (8227 : Int) = wrapInt64 (statSum demoOS ["r", "r/a.txt", "r/b.txt", "r/c", "r/c/d.txt"]) :=
  ⟨by decide,
   (total_size_eq_wrapped_sum demoOS 3 "r"
      { files := ["r", "r/a.txt", "r/b.txt", "r/c", "r/c/d.txt"],
        total_size := 8227,
        statLog := ["r", "r/a.txt", "r/b.txt", "r/c", "r/c/d.txt"] } none (by decide)).1⟩

set_option maxRecDepth 100000 in
/-- Counterexample to C2 as stated: two files of 2^62 bytes under a
directory of 0 bytes. The walk completes, every stat query succeeds, the
sizes sum to 2^63, and `total_size` ends at -2^63. -/
theorem total_size_ne_sum_counterexample :
    WalkDir sparseOS (visit_size sparseOS) 2 "big" State.init =
        .ok ({ files := ["big", "big/x", "big/y"],
               total_size := -9223372036854775808,
               statLog := ["big", "big/x", "big/y"] }, none) ∧
      statSum sparseOS ["big", "big/x", "big/y"] = 9223372036854775808 ∧
      (-9223372036854775808 : Int) ≠ statSum sparseOS ["big", "big/x", "big/y"] := by
  decide

/-! ## What one call of a callback does -/

/-- C4 (the code at the failing input): on a path whose stat query fails,
`visit_size` does not return nil; the dereference of the nil `FileInfo`
panics. Here the path is `r/gone` in the demo tree, with a non-nil entry
handle and no listing error. -/
theorem visit_size_panics_on_failed_stat :
    demoOS.Stat "r/gone" = .error ENOENT ∧
      visit_size demoOS "r/gone" (some ⟨"gone", false⟩) none State.init =
        .error (.panic nilDeref) := by
  decide

/-- C8: for every state, path, entry handle and listing error, `visit`
returns nil, leaves `total_size` and the record of stat queries as they
were, and changes `files` only by appending `path` at the end. -/
theorem visit_frame (path : String) (di : Option DirEntry) (err : Option GoError)
    (s : State) :
    visit path di err s =
      .ok ({ files := s.files ++ [path],
             total_size := s.total_size,
             statLog := s.statLog }, none) := rfl

/-- C9: for every state and every call of `visit` or of `visit_size` that
returns, the old `files` is a prefix of the new one, the new one is one
element longer, and its last element is the path of the call, whatever the
listing error passed in. -/
theorem files_append_only (os : OS) (path : String) (di : Option DirEntry)
    (err : Option GoError) (s s' : State) (e : Option GoError)
    (h : visit path di err s = .ok (s', e) ∨ visit_size os path di err s = .ok (s', e)) :
    s.files <+: s'.files ∧ s'.files.length = s.files.length + 1 ∧
      s'.files.getLast? = some path := by
  have key : s'.files = s.files ++ [path] := by
    rcases h with h | h
    · rw [visit_eq] at h
      cases h
      rfl
    · obtain ⟨info, _, _, rfl⟩ := visit_size_returns os path di err s s' e h
      rfl
  rw [key]
  exact ⟨List.prefix_append _ _, by simp, by simp⟩

/-- Witness for C9: `visit_size` on `r/c` of the demo tree with a listing
error passed in. -/
theorem files_append_only_witness :
    visit_size demoOS "r/c" (some ⟨"c", true⟩) (some EACCES)
        { files := ["r"], total_size := 4096, statLog := ["r"] } =
      .ok ({ files := ["r", "r/c"], total_size := 8192, statLog := ["r", "r/c"] }, none) ∧
    (["r"] <+: ["r", "r/c"] ∧ ["r", "r/c"].length = ["r"].length + 1 ∧
      ["r", "r/c"].getLast? = some "r/c") :=
  ⟨by decide,
   files_append_only demoOS "r/c" (some ⟨"c", true⟩) (some EACCES)
     { files := ["r"], total_size := 4096, statLog := ["r"] }
     { files := ["r", "r/c"], total_size := 8192, statLog := ["r", "r/c"] } none
     (Or.inr (by decide))⟩

/-- C10 (as amended): for every `total_size` in the `int64` range and
every call of `visit_size` whose stat query reports a size >= 0 with
`total_size + size <= 2^63 - 1`, the value after the call is the old value
plus the size, hence >= the old value. -/
theorem total_size_monotone (os : OS) (path : String) (di : Option DirEntry)
    (err : Option GoError) (s s' : State) (e : Option GoError) (info : FileInfo)
    (hstat : os.Stat path = .ok info) (hsize : 0 ≤ info.size)
    (hlo : minInt64 ≤ s.total_size) (hfit : s.total_size + info.size ≤ maxInt64)
    (hcall : visit_size os path di err s = .ok (s', e)) :
    s'.total_size = s.total_size + info.size ∧ s.total_size ≤ s'.total_size := by
  rw [visit_size_ok os path di err s info hstat] at hcall
  cases hcall
  have hw : wrapInt64 (s.total_size + info.size) = s.total_size + info.size :=
    wrapInt64_of_fits _ (by omega) hfit
  refine ⟨hw, ?_⟩
  show s.total_size ≤ wrapInt64 (s.total_size + info.size)
  rw [hw]
  omega

/-- Witness for C10: `visit_size` on `r/a.txt` of the demo tree. -/
theorem total_size_monotone_witness :
    visit_size demoOS "r/a.txt" (some ⟨"a.txt", false⟩) none
        { files := ["r"], total_size := 4096, statLog := ["r"] } =
      .ok ({ files := ["r", "r/a.txt"], total_size := 4106,
             statLog := ["r", "r/a.txt"] }, none) ∧
    ((4106 : Int) = 4096 + 10 ∧ (4096 : Int) ≤ 4106) :=
  ⟨by decide,
   total_size_monotone demoOS "r/a.txt" (some ⟨"a.txt", false⟩) none
     { files := ["r"], total_size := 4096, statLog := ["r"] }
     { files := ["r", "r/a.txt"], total_size := 4106, statLog := ["r", "r/a.txt"] }
     none ⟨"a.txt", 10, false⟩ (by decide) (by decide) (by decide) (by decide)
     (by decide)⟩

/-- Counterexample to C10 as stated: with `total_size` at the largest
`int64` and a stat query reporting 10 bytes (`r/a.txt` of the demo tree),
the value after the call is below the value before it. -/
theorem total_size_monotone_counterexample :
    demoOS.Stat "r/a.txt" = .ok ⟨"a.txt", 10, false⟩ ∧
      visit_size demoOS "r/a.txt" (some ⟨"a.txt", false⟩) none
          { files := [], total_size := 9223372036854775807, statLog := [] } =
        .ok ({ files := ["r/a.txt"], total_size := -9223372036854775799,
               statLog := ["r/a.txt"] }, none) ∧
      (-9223372036854775799 : Int) < 9223372036854775807 := by
  decide

/-! ## A root that does not exist -/

/-- C5: when the root path does not exist (both `os.Lstat` and `os.Stat`
fail on it), a run of `main` writes only the root path line to standard
output and ends in a failure (the panic of `visit_size`) before the count
line and the size line. -/
theorem main_missing_root (os : OS) (fuel : Nat) (prog root : String)
    (rest : List String) (e1 e2 : GoError)
    (hl : os.Lstat root = .error e1) (hs : os.Stat root = .error e2) :
    main os fuel (prog :: root :: rest) =
      { stdout := [root], exit := .aborted (.panic nilDeref) } := by
  simp [main, WalkDir, hl, visit_size_panic os root none (some e1) State.init e2 hs]

/-- Witness for C5: the demo file system has no `nowhere`. -/
theorem main_missing_root_witness :
    main demoOS 0 ["dirwalk", "nowhere"] =
      { stdout := ["nowhere"], exit := .aborted (.panic nilDeref) } :=
  main_missing_root demoOS 0 "dirwalk" "nowhere" [] ENOENT ENOENT (by decide) (by decide)


/-! ## Induction on trees, and the functions on lists of children -/

/-- Induction on a tree: a property that holds of every entry without
children, and of a directory whenever it holds of its children, holds of
every tree. -/
theorem Tree.induct (P : Tree → Prop)
    (hfile : ∀ n sz, P (.file n sz))
    (hdir : ∀ n sz kids, (∀ k ∈ kids, P k) → P (.dir n sz kids))
    (hlocked : ∀ n sz e, P (.locked n sz e)) : ∀ t, P t := by
  intro t
  refine @Tree.rec P (fun ks => ∀ k ∈ ks, P k)
    hfile (fun n sz kids ih => hdir n sz kids ih) hlocked ?_ ?_ t
  · intro k hk
    cases hk
  · intro k ks hk hks k' hk'
    rcases List.mem_cons.1 hk' with rfl | h
    · exact hk
    · exact hks k' h

theorem Tree.holdsKids_iff (os : OS) (path : String) (ks : List Tree) :
    Tree.holdsKids os path ks = true ↔
      ∀ k ∈ ks, Tree.holds os (os.Join path k.name) k = true := by
  induction ks with
  | nil => simp [Tree.holdsKids]
  | cons k ks ih => simp [Tree.holdsKids, ih]

theorem Tree.depthKids_le (ks : List Tree) : ∀ k ∈ ks, k.depth ≤ Tree.depthKids ks := by
  induction ks with
  | nil => intro k hk; cases hk
  | cons k0 ks ih =>
    intro k hk
    rw [Tree.depthKids]
    rcases List.mem_cons.1 hk with rfl | h
    · exact le_max_left _ _
    · exact le_trans (ih k h) (le_max_right _ _)

theorem Tree.countKids_eq (ks : List Tree) :
    Tree.countKids ks = (ks.map Tree.count).sum := by
  induction ks with
  | nil => rfl
  | cons k ks ih => simp [Tree.countKids, ih]

theorem Tree.fileSizeSumKids_eq (ks : List Tree) :
    Tree.fileSizeSumKids ks = (ks.map Tree.fileSizeSum).sum := by
  induction ks with
  | nil => rfl
  | cons k ks ih => simp [Tree.fileSizeSumKids, ih]

theorem Tree.dirSizeSumKids_eq (ks : List Tree) :
    Tree.dirSizeSumKids ks = (ks.map Tree.dirSizeSum).sum := by
  induction ks with
  | nil => rfl
  | cons k ks ih => simp [Tree.dirSizeSumKids, ih]

theorem Tree.listableKids_iff (ks : List Tree) :
    Tree.listableKids ks = true ↔ ∀ k ∈ ks, k.listable = true := by
  induction ks with
  | nil => simp [Tree.listableKids]
  | cons k ks ih => simp [Tree.listableKids, ih]

theorem Tree.pathsKids_eq (join : String → String → String) (path : String)
    (ks : List Tree) :
    Tree.pathsKids join path ks = ks.flatMap (fun k => Tree.paths join (join path k.name) k) := by
  induction ks with
  | nil => rfl
  | cons k ks ih => simp [Tree.pathsKids, ih]

theorem Tree.lockedPathsKids_eq (join : String → String → String) (path : String)
    (ks : List Tree) :
    Tree.lockedPathsKids join path ks =
      ks.flatMap (fun k => Tree.lockedPaths join (join path k.name) k) := by
  induction ks with
  | nil => rfl
  | cons k ks ih => simp [Tree.lockedPathsKids, ih]

theorem Tree.preorderKids_eq (join : String → String → String) (path : String)
    (ks : List Tree) :
    Tree.preorderKids join path ks =
      ks.map (fun k => (k.name, Tree.preorder join (join path k.name) k)) := by
  induction ks with
  | nil => rfl
  | cons k ks ih => simp [Tree.preorderKids, ih]

theorem Tree.visitsKids_eq (join : String → String → String) (path : String)
    (ks : List Tree) :
    Tree.visitsKids join path ks =
      ks.map (fun k => (k.name, Tree.visits join (join path k.name) k)) := by
  induction ks with
  | nil => rfl
  | cons k ks ih => simp [Tree.visitsKids, ih]

/-! ## Children in name order -/

/-- Sorting the entries of the children is sorting the children. -/
theorem sort_entries (ks : List Tree) :
    (ks.map Tree.entry).insertionSort DirEntry.le =
      (ks.insertionSort Tree.le).map Tree.entry :=
  (List.map_insertionSort Tree.le DirEntry.le Tree.entry ks
    (fun _ _ _ _ => Iff.rfl)).symm

/-- Putting named listings in name order is listing the children in name
order. -/
theorem inNameOrder_map (ks : List Tree) (V : Tree → List String) :
    inNameOrder (ks.map (fun k => (k.name, V k))) = (ks.insertionSort Tree.le).flatMap V := by
  unfold inNameOrder
  rw [← List.map_insertionSort Tree.le namedLE (fun k => (k.name, V k)) ks
    (fun _ _ _ _ => Iff.rfl)]
  simp [List.flatMap, List.map_map, Function.comp_def]

theorem sum_map_sorted {α : Type} [AddCommMonoid α] (ks : List Tree) (f : Tree → α) :
    ((ks.insertionSort Tree.le).map f).sum = (ks.map f).sum :=
  ((List.perm_insertionSort Tree.le ks).map f).sum_eq

/-- The listings of the children in name order hold the same paths as the
listings in directory order. -/
theorem flatMap_sorted_perm (ks : List Tree) (V : Tree → List String) :
    ((ks.insertionSort Tree.le).flatMap V).Perm (ks.flatMap V) :=
  List.Perm.flatMap_right V (List.perm_insertionSort Tree.le ks)

/-! ## The walk over a tree -/

theorem wrapInt64_idem (x : Int) : wrapInt64 (wrapInt64 x) = wrapInt64 x := by
  unfold wrapInt64
  omega

theorem State.after_after (s : State) (v w : List String) (a b : Int) :
    (s.after v a).after w b = s.after (v ++ w) (a + b) := by
  simp only [State.after, List.append_assoc, wrapInt64_add_left, add_assoc]

theorem State.after_nil (s : State) (h : wrapInt64 s.total_size = s.total_size) :
    s.after [] 0 = s := by
  cases s
  simp only [State.after, List.append_nil, add_zero] at *
  simp [h]

theorem State.after_wrapped (s : State) (v : List String) (a : Int) :
    wrapInt64 (s.after v a).total_size = (s.after v a).total_size :=
  wrapInt64_idem _

/-- A successful stat query makes `visit_size` one step of `State.after`. -/
theorem visit_size_after (os : OS) (path : String) (di : Option DirEntry)
    (err : Option GoError) (s : State) (sz : Int) (h : statSize os path = some sz) :
    visit_size os path di err s = .ok (s.after [path] sz, none) := by
  unfold statSize at h
  cases hst : os.Stat path with
  | error e => simp [hst] at h
  | ok info =>
    simp only [hst, Option.some.injEq] at h
    rw [visit_size_ok os path di err s info hst, ← h]
    rfl

/-- The loop of `walkDir` over the entries of the children `ks`, when the
recursive call on each child `k` returns nil after the calls `V k` that
add `Z k` bytes. -/
theorem walkLoop_kids (os : OS)
    (rec : String → DirEntry → State → Except Abort (State × Option GoError))
    (path : String) (V : Tree → List String) (Z : Tree → Int) :
    ∀ (ks : List Tree) (s : State), wrapInt64 s.total_size = s.total_size →
      (∀ k ∈ ks, ∀ s, rec (os.Join path k.name) k.entry s = .ok (s.after (V k) (Z k), none)) →
      walkLoop os rec path (ks.map Tree.entry) s =
        .ok (s.after (ks.flatMap V) (ks.map Z).sum, none) := by
  intro ks
  induction ks with
  | nil =>
    intro s hs _
    simp only [List.map_nil, walkLoop, List.flatMap_nil, List.sum_nil]
    rw [State.after_nil s hs]
  | cons k ks ih =>
    intro s hs hrec
    have hk := hrec k (List.mem_cons_self k ks) s
    have hks : ∀ k' ∈ ks, ∀ s,
        rec (os.Join path k'.name) k'.entry s = .ok (s.after (V k') (Z k'), none) :=
      fun k' hk' => hrec k' (List.mem_cons_of_mem k hk')
    have hstep := ih (s.after (V k) (Z k)) (State.after_wrapped s (V k) (Z k)) hks
    rw [State.after_after] at hstep
    simp only [List.map_cons, walkLoop]
    have hk' : rec (os.Join path (Tree.entry k).name) (Tree.entry k) s =
        .ok (s.after (V k) (Z k), none) := hk
    rw [hk']
    simp only [List.flatMap_cons, List.sum_cons]
    exact hstep

/-- The walk of a tree: when the file system looks like the tree `t` at
`path` and the bound on the depth is above the depth of the tree,
`walkDir` with `visit_size` returns nil after the calls `t.visits`, which
add the file sizes and the directory sizes of the tree. -/
theorem walkDir_tree (os : OS) (t : Tree) :
    ∀ (path : String) (d : DirEntry) (s : State) (fuel : Nat),
      t.holds os path = true → d.isDir = t.isDir → t.depth < fuel →
      walkDir os (visit_size os) fuel path d s =
        .ok (s.after (t.visits os.Join path) (t.fileSizeSum + t.dirSizeSum), none) := by
  induction t using Tree.induct with
  | hfile n sz =>
    intro path d s fuel hh hd hf
    obtain ⟨fuel, rfl⟩ : ∃ f, fuel = f + 1 := ⟨fuel - 1, by omega⟩
    have hst : statSize os path = some sz := by simpa [Tree.holds] using hh
    have hd' : d.isDir = false := by simpa [Tree.isDir] using hd
    rw [walkDir, visit_size_after os path (some d) none s sz hst]
    simp [hd', Tree.visits, Tree.fileSizeSum, Tree.dirSizeSum]
  | hlocked n sz e =>
    intro path d s fuel hh hd hf
    obtain ⟨fuel, rfl⟩ : ∃ f, fuel = f + 1 := ⟨fuel - 1, by omega⟩
    have hh' : statSize os path = some sz ∧ os.readdir path = ([], some e) := by
      simpa [Tree.holds] using hh
    have hd' : d.isDir = true := by simpa [Tree.isDir] using hd
    have hrd : ReadDir os path = ([], some e) := by simp [ReadDir, hh'.2]
    rw [walkDir, visit_size_after os path (some d) none s sz hh'.1]
    simp only [hd', hrd, visit_size_after os path (some d) (some e) _ sz hh'.1]
    simp [walkLoop, State.after_after, Tree.visits, Tree.fileSizeSum, Tree.dirSizeSum]
  | hdir n sz kids ih =>
    intro path d s fuel hh hd hf
    obtain ⟨fuel, rfl⟩ : ∃ f, fuel = f + 1 := ⟨fuel - 1, by omega⟩
    have hh' : (statSize os path = some sz ∧
        os.readdir path = (kids.map Tree.entry, none)) ∧
        Tree.holdsKids os path kids = true := by
      simpa [Tree.holds] using hh
    obtain ⟨⟨hst, hls⟩, hkids⟩ := hh'
    rw [Tree.holdsKids_iff] at hkids
    have hd' : d.isDir = true := by simpa [Tree.isDir] using hd
    have hrd : ReadDir os path = ((kids.insertionSort Tree.le).map Tree.entry, none) := by
      simp [ReadDir, hls, sort_entries]
    have hdepth : Tree.depthKids kids < fuel := by
      rw [Tree.depth] at hf
      omega
    have hrec : ∀ k ∈ kids.insertionSort Tree.le, ∀ s,
        walkDir os (visit_size os) fuel (os.Join path k.name) k.entry s =
          .ok (s.after (Tree.visits os.Join (os.Join path k.name) k)
            (k.fileSizeSum + k.dirSizeSum), none) := by
      intro k hk s1
      have hk' : k ∈ kids := (List.mem_insertionSort Tree.le).1 hk
      exact ih k hk' (os.Join path k.name) k.entry s1 fuel (hkids k hk') rfl
        (lt_of_le_of_lt (Tree.depthKids_le kids k hk') hdepth)
    have hloop := walkLoop_kids os (walkDir os (visit_size os) fuel) path
      (fun k => Tree.visits os.Join (os.Join path k.name) k)
      (fun k => k.fileSizeSum + k.dirSizeSum)
      (kids.insertionSort Tree.le) (s.after [path] sz) (State.after_wrapped s [path] sz) hrec
    rw [walkDir, visit_size_after os path (some d) none s sz hst]
    simp only [hd', hrd]
    simp only [ne_eq, not_true_eq_false, Bool.not_true, Bool.false_eq_true, or_self,
      ↓reduceIte]
    rw [hloop, State.after_after, sum_map_sorted]
    simp only [Tree.visits, Tree.visitsKids_eq, inNameOrder_map, Tree.fileSizeSum,
      Tree.dirSizeSum, Tree.fileSizeSumKids_eq, Tree.dirSizeSumKids_eq, List.sum_map_add,
      List.singleton_append]
    congr 3
    ring

/-- The function `filepath.WalkDir` on a tree: with the bound on the depth
above the depth of the tree it returns nil after the calls `t.visits`. -/
theorem WalkDir_tree (os : OS) (t : Tree) (root : String) (fuel : Nat) (s : State)
    (h : t.rooted os root = true) (hf : t.depth < fuel) :
    WalkDir os (visit_size os) fuel root s =
      .ok (s.after (t.visits os.Join root) (t.fileSizeSum + t.dirSizeSum), none) := by
  unfold Tree.rooted at h
  cases hl : os.Lstat root with
  | error e => simp [hl] at h
  | ok info =>
    simp only [hl, Bool.and_eq_true, decide_eq_true_eq] at h
    unfold WalkDir
    simp only [hl]
    rw [walkDir_tree os t root (FileInfoToDirEntry info) s fuel h.2 h.1 hf]
    simp

/-! ## What the sequence of calls holds -/

theorem flatMap_sublist {α : Type} (ks : List α) (f g : α → List String)
    (h : ∀ k ∈ ks, (f k).Sublist (g k)) : (ks.flatMap f).Sublist (ks.flatMap g) := by
  induction ks with
  | nil => simp
  | cons k ks ih =>
    simp only [List.flatMap_cons]
    exact (h k (List.mem_cons_self k ks)).append
      (ih (fun k' hk' => h k' (List.mem_cons_of_mem k hk')))

theorem flatMap_congr_mem {α : Type} (ks : List α) (f g : α → List String)
    (h : ∀ k ∈ ks, f k = g k) : ks.flatMap f = ks.flatMap g := by
  induction ks with
  | nil => rfl
  | cons k ks ih =>
    simp only [List.flatMap_cons]
    rw [h k (List.mem_cons_self k ks), ih (fun k' hk' => h k' (List.mem_cons_of_mem k hk'))]

/-- The sequence of calls holds the path of every entry once, and the path
of every directory whose listing fails once more. -/
theorem Tree.visits_perm (join : String → String → String) (t : Tree) :
    ∀ path, (t.visits join path).Perm (t.paths join path ++ t.lockedPaths join path) := by
  induction t using Tree.induct with
  | hfile n sz => intro path; simp [Tree.visits, Tree.paths, Tree.lockedPaths]
  | hlocked n sz e => intro path; simp [Tree.visits, Tree.paths, Tree.lockedPaths]
  | hdir n sz kids ih =>
    intro path
    simp only [Tree.visits, Tree.paths, Tree.lockedPaths, Tree.visitsKids_eq,
      inNameOrder_map, Tree.pathsKids_eq, Tree.lockedPathsKids_eq, List.cons_append]
    refine List.Perm.cons path ?_
    refine (flatMap_sorted_perm kids _).trans ?_
    refine (List.Perm.flatMap_left kids (fun k hk => ih k hk (join path k.name))).trans ?_
    exact (List.flatMap_append_perm kids _ _).symm

theorem Tree.length_paths (join : String → String → String) (t : Tree) :
    ∀ path, (t.paths join path).length = t.count := by
  induction t using Tree.induct with
  | hfile n sz => intro path; rfl
  | hlocked n sz e => intro path; rfl
  | hdir n sz kids ih =>
    intro path
    simp only [Tree.paths, Tree.count, Tree.pathsKids_eq, Tree.countKids_eq,
      List.length_cons, List.length_flatMap]
    have : kids.map (List.length ∘ fun k => Tree.paths join (join path k.name) k) =
        kids.map Tree.count :=
      List.map_congr_left (fun k hk => ih k hk (join path k.name))
    rw [this]
    omega

theorem Tree.lockedPaths_of_listable (join : String → String → String) (t : Tree) :
    ∀ path, t.listable = true → t.lockedPaths join path = [] := by
  induction t using Tree.induct with
  | hfile n sz => intro path _; rfl
  | hlocked n sz e => intro path h; simp [Tree.listable] at h
  | hdir n sz kids ih =>
    intro path h
    rw [Tree.listable, Tree.listableKids_iff] at h
    simp only [Tree.lockedPaths, Tree.lockedPathsKids_eq]
    rw [flatMap_congr_mem kids _ (fun _ => [])
      (fun k hk => ih k hk (join path k.name) (h k hk))]
    simp

theorem Tree.lockedPaths_sublist (join : String → String → String) (t : Tree) :
    ∀ path, (t.lockedPaths join path).Sublist (t.paths join path) := by
  induction t using Tree.induct with
  | hfile n sz => intro path; simp [Tree.lockedPaths]
  | hlocked n sz e => intro path; simp [Tree.lockedPaths, Tree.paths]
  | hdir n sz kids ih =>
    intro path
    simp only [Tree.lockedPaths, Tree.paths, Tree.lockedPathsKids_eq, Tree.pathsKids_eq]
    exact List.Sublist.cons path
      (flatMap_sublist kids _ _ (fun k hk => ih k hk (join path k.name)))

/-- When every directory can be listed, the sequence of calls is the
pre-order listing. -/
theorem Tree.visits_eq_preorder (join : String → String → String) (t : Tree) :
    ∀ path, t.listable = true → t.visits join path = t.preorder join path := by
  induction t using Tree.induct with
  | hfile n sz => intro path _; rfl
  | hlocked n sz e => intro path h; simp [Tree.listable] at h
  | hdir n sz kids ih =>
    intro path h
    rw [Tree.listable, Tree.listableKids_iff] at h
    simp only [Tree.visits, Tree.preorder, Tree.visitsKids_eq, Tree.preorderKids_eq]
    have : kids.map (fun k => (k.name, Tree.visits join (join path k.name) k)) =
        kids.map (fun k => (k.name, Tree.preorder join (join path k.name) k)) :=
      List.map_congr_left (fun k hk => by rw [ih k hk (join path k.name) (h k hk)])
    rw [this]

theorem Tree.length_visits (join : String → String → String) (t : Tree) (path : String)
    (h : t.listable = true) : (t.visits join path).length = t.count := by
  have hp := (Tree.visits_perm join t path).length_eq
  rw [Tree.lockedPaths_of_listable join t path h, List.append_nil,
    Tree.length_paths join t path] at hp
  exact hp

/-- With pairwise distinct paths, the sequence of calls holds the path of
a directory whose listing fails exactly twice. -/
theorem Tree.count_visits_locked (join : String → String → String) (t : Tree)
    (path : String) (hnd : (t.paths join path).Nodup) (p : String)
    (hp : p ∈ t.lockedPaths join path) : (t.visits join path).count p = 2 := by
  have hsub := Tree.lockedPaths_sublist join t path
  rw [(Tree.visits_perm join t path).count_eq, List.count_append,
    List.count_eq_one_of_mem hnd (hsub.subset hp),
    List.count_eq_one_of_mem (hsub.nodup hnd) hp]

/-! ## Name order -/

/-- The entries `os.ReadDir` returns are in ascending order of name and
are the entries read. -/
theorem ReadDir_sorted (os : OS) (path : String) :
    (ReadDir os path).1.Sorted DirEntry.le ∧ (ReadDir os path).1.Perm (os.readdir path).1 ∧
      (ReadDir os path).2 = (os.readdir path).2 :=
  ⟨List.sorted_insertionSort DirEntry.le _, List.perm_insertionSort DirEntry.le _, rfl⟩

/-- The listings put together by `inNameOrder` are taken in ascending
order of name, each once. -/
theorem inNameOrder_sorted (named : List (String × List String)) :
    ∃ sorted : List (String × List String),
      sorted.Sorted namedLE ∧ sorted.Perm named ∧
        inNameOrder named = (sorted.map Prod.snd).flatten :=
  ⟨named.insertionSort namedLE, List.sorted_insertionSort namedLE _,
    List.perm_insertionSort namedLE _, rfl⟩

/-! ## The walk from the declared values -/

/-- The run of `main` on a tree: the root path line, the count line and
the size line. -/
theorem main_tree (os : OS) (t : Tree) (prog root : String) (rest : List String)
    (fuel : Nat) (h : t.rooted os root = true) (hf : t.depth < fuel) :
    main os fuel (prog :: root :: rest) =
      { stdout := [root, toString (t.visits os.Join root).length,
                   toString (wrapInt64 (t.fileSizeSum + t.dirSizeSum))],
        exit := .returned } := by
  have hw := WalkDir_tree os t root fuel State.init h hf
  simp only [main, hw]
  simp [State.after, State.init]

/-- C1: for a static tree `t` with `t.count` entries (the root and every
descendant) in which every directory can be listed and every stat query
succeeds, the walk of `main` (`filepath.WalkDir` with `visit_size`) from
the declared values returns nil, once the bound on the depth is above the
depth of the tree, and ends with `len(files) = t.count`. -/
theorem walk_counts_every_entry (os : OS) (t : Tree) (root : String) (fuel : Nat)
    (h : t.rooted os root = true) (hl : t.listable = true) (hf : t.depth < fuel) :
    ∃ s', WalkDir os (visit_size os) fuel root State.init = .ok (s', none) ∧
      s'.files.length = t.count :=
  ⟨_, WalkDir_tree os t root fuel State.init h hf, by
    simp [State.after, State.init, Tree.length_visits os.Join t root hl]⟩

set_option maxRecDepth 100000 in
/-- Witness for C1: the demo tree has 5 entries. -/
theorem walk_counts_every_entry_witness :
    demoTree.count = 5 ∧
      ∃ s', WalkDir demoOS (visit_size demoOS) 3 "r" State.init = .ok (s', none) ∧
        s'.files.length = demoTree.count :=
  ⟨by decide,
   walk_counts_every_entry demoOS demoTree "r" 3 (by decide) (by decide) (by decide)⟩

/-- C3 (as amended): for a static tree in which no stat query fails, with
file sizes summing to `t.fileSizeSum` and directory sizes summing to
`t.dirSizeSum` (a directory whose listing fails taken twice), the walk with
`visit_size` from `total_size = 0` returns nil and ends with `total_size`
equal to the sum of both, wrapped into the `int64` range; it is that sum
itself whenever the sum fits in an `int64`. -/
theorem total_size_of_tree (os : OS) (t : Tree) (root : String) (fuel : Nat)
    (h : t.rooted os root = true) (hf : t.depth < fuel) :
    ∃ s', WalkDir os (visit_size os) fuel root State.init = .ok (s', none) ∧
      s'.total_size = wrapInt64 (t.fileSizeSum + t.dirSizeSum) ∧
      (minInt64 ≤ t.fileSizeSum + t.dirSizeSum → t.fileSizeSum + t.dirSizeSum ≤ maxInt64 →
        s'.total_size = t.fileSizeSum + t.dirSizeSum) := by
  refine ⟨_, WalkDir_tree os t root fuel State.init h hf, ?_, ?_⟩
  · simp [State.after, State.init]
  · intro hlo hhi
    simp [State.after, State.init, wrapInt64_of_fits _ hlo hhi]

set_option maxRecDepth 100000 in
/-- Witness for C3: in the demo tree the files sum to 35 bytes and the two
directories to 8192 bytes. -/
theorem total_size_of_tree_witness :
    demoTree.fileSizeSum = 35 ∧ demoTree.dirSizeSum = 8192 ∧
      ∃ s', WalkDir demoOS (visit_size demoOS) 3 "r" State.init = .ok (s', none) ∧
        s'.total_size = wrapInt64 (demoTree.fileSizeSum + demoTree.dirSizeSum) ∧
        (minInt64 ≤ demoTree.fileSizeSum + demoTree.dirSizeSum →
          demoTree.fileSizeSum + demoTree.dirSizeSum ≤ maxInt64 →
          s'.total_size = demoTree.fileSizeSum + demoTree.dirSizeSum) :=
  ⟨by decide, by decide,
   total_size_of_tree demoOS demoTree "r" 3 (by decide) (by decide)⟩

set_option maxRecDepth 100000 in
/-- Counterexample to C3 as stated: an empty root directory that reports
4096 bytes holds no file, and the walk ends with `total_size = 4096`; the
example tree with 35 bytes of files and two directories of 4096 bytes ends
with `total_size = 8227`. -/
theorem total_size_counts_directories_counterexample :
    (emptyTree.rooted emptyOS "r" = true ∧ emptyTree.fileSizeSum = 0 ∧
      WalkDir emptyOS (visit_size emptyOS) 1 "r" State.init =
        .ok ({ files := ["r"], total_size := 4096, statLog := ["r"] }, none)) ∧
    (demoTree.rooted demoOS "r" = true ∧ demoTree.fileSizeSum = 35 ∧
      WalkDir demoOS (visit_size demoOS) 3 "r" State.init =
        .ok ({ files := ["r", "r/a.txt", "r/b.txt", "r/c", "r/c/d.txt"],
               total_size := 8227,
               statLog := ["r", "r/a.txt", "r/b.txt", "r/c", "r/c/d.txt"] }, none)) := by
  decide

/-- C6: for a static tree in which every directory can be listed and every
stat query succeeds, the walk from the declared values returns nil with
`files` equal to the depth-first pre-order listing of the tree (a
directory before what is below it, the children of a directory in
lexicographic order of their names); two runs, whatever their bounds above
the depth of the tree, end with the same sequence. -/
theorem walk_order (os : OS) (t : Tree) (root : String) (fuel fuel' : Nat)
    (h : t.rooted os root = true) (hl : t.listable = true)
    (hf : t.depth < fuel) (hf' : t.depth < fuel') :
    ∃ s1 s2, WalkDir os (visit_size os) fuel root State.init = .ok (s1, none) ∧
      WalkDir os (visit_size os) fuel' root State.init = .ok (s2, none) ∧
      s1.files = t.preorder os.Join root ∧ s2.files = s1.files :=
  ⟨_, _, WalkDir_tree os t root fuel State.init h hf,
    WalkDir_tree os t root fuel' State.init h hf', by
      simp [State.after, State.init, Tree.visits_eq_preorder os.Join t root hl], rfl⟩

set_option maxRecDepth 100000 in
/-- Witness for C6: the listing of the demo tree, whose directory `r` is
read in the order `c`, `b.txt`, `a.txt`. -/
theorem walk_order_witness :
    demoTree.preorder joinSlash "r" = ["r", "r/a.txt", "r/b.txt", "r/c", "r/c/d.txt"] ∧
      ∃ s1 s2, WalkDir demoOS (visit_size demoOS) 3 "r" State.init = .ok (s1, none) ∧
        WalkDir demoOS (visit_size demoOS) 7 "r" State.init = .ok (s2, none) ∧
        s1.files = demoTree.preorder demoOS.Join "r" ∧ s2.files = s1.files :=
  ⟨by decide,
   walk_order demoOS demoTree "r" 3 7 (by decide) (by decide) (by decide) (by decide)⟩

/-- C7 (as amended): for a static tree in which every stat query succeeds
and whose entries have pairwise distinct paths, the walk from the declared
values returns nil (no crash), and the path of a directory whose children
cannot be listed is recorded in `files` exactly twice: once for the visit
and once for the report of the listing error. -/
theorem locked_dir_recorded_twice (os : OS) (t : Tree) (root : String) (fuel : Nat)
    (h : t.rooted os root = true) (hf : t.depth < fuel)
    (hnd : (t.paths os.Join root).Nodup) (p : String)
    (hp : p ∈ t.lockedPaths os.Join root) :
    ∃ s', WalkDir os (visit_size os) fuel root State.init = .ok (s', none) ∧
      s'.files.count p = 2 :=
  ⟨_, WalkDir_tree os t root fuel State.init h hf, by
    simp [State.after, State.init, Tree.count_visits_locked os.Join t root hnd p hp]⟩

set_option maxRecDepth 100000 in
/-- Witness for C7: the directory `r/priv` of the locked tree. -/
theorem locked_dir_recorded_twice_witness :
    lockedTree.lockedPaths joinSlash "r" = ["r/priv"] ∧
      ∃ s', WalkDir lockedOS (visit_size lockedOS) 2 "r" State.init = .ok (s', none) ∧
        s'.files.count "r/priv" = 2 :=
  ⟨by decide,
   locked_dir_recorded_twice lockedOS lockedTree "r" 2 (by decide) (by decide) (by decide)
     "r/priv" (by decide)⟩

set_option maxRecDepth 100000 in
/-- Counterexample to C7 as stated: `r/priv` cannot be listed and its stat
query succeeds; the walk returns nil with `r/priv` in `files` twice, and
`len(files)` is 4 for a tree of 3 entries. -/
theorem locked_dir_once_counterexample :
    lockedTree.rooted lockedOS "r" = true ∧
      lockedOS.readdir "r/priv" = ([], some EACCES) ∧
      statSize lockedOS "r/priv" = some 4096 ∧
      WalkDir lockedOS (visit_size lockedOS) 2 "r" State.init =
        .ok ({ files := ["r", "r/a.txt", "r/priv", "r/priv"],
               total_size := 12298,
               statLog := ["r", "r/a.txt", "r/priv", "r/priv"] }, none) ∧
      ["r", "r/a.txt", "r/priv", "r/priv"].count "r/priv" = 2 ∧ lockedTree.count = 3 := by
  decide

end Dirwalk
